import Mathlib

/-!
Verification development for the `eachain/log` logging library.

The Go sources are shallowly embedded: pure rendering code becomes Lean
functions on `List Char` / `Nat`; stateful components (the cached async
sink, the inotify-based rotation watcher, the raw file writer) become
explicit state-passing functions or labelled transition systems; system
calls whose outcome the code branches on (`os.OpenFile`,
`syscall.InotifyInit`, …) become explicit `Option`/`Bool` parameters that
carry the outcome of the call.
-/

namespace EachainLog

/-! ### Flags and levels (log.go) -/

def Ldate : Nat := 1
def Ltime : Nat := 2
def Lmicroseconds : Nat := 4
def Llongfile : Nat := 8
def Lshortfile : Nat := 16
def LUTC : Nat := 32
def Lmodule : Nat := 64
def Llevel : Nat := 128
def LstdFlags : Nat := (Ldate.lor Ltime).lor (Lmicroseconds.lor Llevel)

def Ldebug : Nat := 0
def Linfo : Nat := 1
def Lnotice : Nat := 2
def Lwarn : Nat := 3
def Lerror : Nat := 4
def Lpanic : Nat := 5
def Lfatal : Nat := 6

def levels : List (List Char) :=
  ["[DEBUG]".toList, "[INFO]".toList, "[NOTICE]".toList, "[WARN]".toList,
   "[ERROR]".toList, "[PANIC]".toList, "[FATAL]".toList]

/-! ### `itoa` (log.go): fixed-width decimal rendering into the buffer.

The Go loop `for ; u > 0 || wid > 0; u /= 10 { wid--; b[bp] = u%10+'0' }`
assembles digits most-significant first; the recursion below produces the
same character list. -/

def itoaLoop (u : Nat) (wid : Int) : List Char :=
  if h : u = 0 ∧ wid ≤ 0 then []
  else itoaLoop (u / 10) (wid - 1) ++ [Char.ofNat (u % 10 + 48)]
termination_by u + wid.toNat
decreasing_by
  simp_wf
  by_cases hu : u = 0
  · subst hu
    have hw : ¬ wid ≤ 0 := fun hww => h ⟨rfl, hww⟩
    omega
  · have hlt : u / 10 < u := Nat.div_lt_self (Nat.pos_of_ne_zero hu) (by norm_num)
    omega

def itoa (i : Nat) (wid : Int) : List Char :=
  if i = 0 ∧ wid ≤ 1 then ['0'] else itoaLoop i wid

/-! ### `moduleOf` and the `Lshortfile` trimming (log.go) -/

/-- `strings.LastIndex`: greatest index `i` such that `sub` occurs in `l`
starting at `i`; `none` when there is no occurrence (Go returns `-1`). -/
def lastIndexOf (l sub : List Char) : Option Nat :=
  ((List.range (l.length + 1)).filter
    (fun i => decide ((l.drop i).take sub.length = sub))).getLast?

def moduleOf (file : List Char) : List Char :=
  match lastIndexOf file ['/'] with
  | none => "UNKNOWN".toList
  | some pos =>
    match lastIndexOf (file.take pos) "/src/".toList with
    | none => "UNKNOWN".toList
    | some pos1 => (file.take pos).drop (pos1 + 5)

/-- The `Lshortfile` loop: scan from the end down to index 1 (index 0 is
never examined) for a `'/'` and keep what follows it. -/
def shortFile (file : List Char) : List Char :=
  match lastIndexOf file ['/'] with
  | none => file
  | some i => if 0 < i then file.drop (i + 1) else file

/-! ### `Logger.formatHeader` and `Logger.output` (log.go) -/

/-- The components of a `time.Time` that `formatHeader` consumes via
`t.Date()`, `t.Clock()` and `t.Nanosecond()`. -/
structure GoTime where
  year : Nat
  month : Nat
  day : Nat
  hour : Nat
  minute : Nat
  sec : Nat
  nsec : Nat
deriving Repr, DecidableEq

def formatHeader (flag : Nat) (t : GoTime) (file : List Char) (line : Nat)
    (lvl : Nat) : List Char :=
  (if (flag.land ((Ldate.lor Ltime).lor Lmicroseconds)) ≠ 0 then
    (if flag.land Ldate ≠ 0 then
      itoa t.year 4 ++ ['-'] ++ itoa t.month 2 ++ ['-'] ++ itoa t.day 2 ++ [' ']
     else []) ++
    (if flag.land (Ltime.lor Lmicroseconds) ≠ 0 then
      itoa t.hour 2 ++ [':'] ++ itoa t.minute 2 ++ [':'] ++ itoa t.sec 2 ++
      (if flag.land Lmicroseconds ≠ 0 then
        ['.'] ++ itoa (t.nsec / 1000000) 3
       else []) ++ [' ']
     else [])
   else []) ++
  (if flag.land Llevel ≠ 0 then levels.getD lvl [] ++ [' '] else []) ++
  (if flag.land Lmodule ≠ 0 then ['['] ++ moduleOf file ++ [']'] ++ [' '] else []) ++
  (if flag.land (Lshortfile.lor Llongfile) ≠ 0 then
    (if flag.land Lshortfile ≠ 0 then shortFile file else file) ++
    [':'] ++ itoa line (-1) ++ [':', ' ']
   else [])

/-- The byte sequence `Logger.output` hands to `l.out.WriteLog`: the header,
the message, and a `'\n'` appended only when the message is nonempty and
does not already end in `'\n'`. -/
def outputPayload (flag : Nat) (t : GoTime) (file : List Char) (line : Nat)
    (lvl : Nat) (s : List Char) : List Char :=
  formatHeader flag t file line lvl ++ s ++
    (if s ≠ [] ∧ s.getLast? ≠ some '\n' then ['\n'] else [])

/-- C7 counterexample: the claim says every payload handed to the sink is
newline-terminated, for every format string, arguments and flag setting.
`Logger.output` only appends `'\n'` when the message is nonempty, so an
empty message (`log.Info("")`) with flag `0` produces an empty payload,
whose last byte is not `'\n'` (it has no last byte at all). -/
theorem c7_counterexample :
    ¬ ((outputPayload 0 ⟨2024, 5, 6, 7, 8, 9, 0⟩ [] 0 Linfo []).getLast? =
        some '\n') := by
  decide

/-- C7 (amended): the payload handed to the sink is the rendered header
followed by the message and, whenever the message is nonempty, its last
byte is `'\n'` (a `'\n'` is appended exactly when the message does not
already end in one); an empty message yields just the header with no
newline appended. -/
theorem c7_payload_newline_terminated (flag : Nat) (t : GoTime)
    (file : List Char) (line lvl : Nat) (s : List Char) (hs : s ≠ []) :
    (outputPayload flag t file line lvl s).getLast? = some '\n' ∧
    ∃ nl, outputPayload flag t file line lvl s =
        formatHeader flag t file line lvl ++ s ++ nl ∧
        (nl = [] ∨ nl = ['\n']) := by
  unfold outputPayload
  by_cases hc : s ≠ [] ∧ s.getLast? ≠ some '\n'
  · rw [if_pos hc]
    refine ⟨?_, ['\n'], rfl, Or.inr rfl⟩
    rw [List.getLast?_concat]
  · rw [if_neg hc]
    push_neg at hc
    have hlast : s.getLast? = some '\n' := hc hs
    refine ⟨?_, [], by simp, Or.inl rfl⟩
    simp [List.getLast?_append, hlast]

/-- C7 witness for the amended theorem at a concrete input. -/
theorem c7_payload_newline_terminated_witness :
    ("abc".toList ≠ [] ∧
      (outputPayload LstdFlags ⟨2024, 5, 6, 7, 8, 9, 123456789⟩ [] 0 Linfo
        "abc".toList).getLast? = some '\n') :=
  ⟨by decide,
   (c7_payload_newline_terminated LstdFlags ⟨2024, 5, 6, 7, 8, 9, 123456789⟩
      [] 0 Linfo "abc".toList (by decide)).1⟩

/-! ### The bounded async sink (logutil/cached.go)

`cachedLogger.Log` (and its `Writer`-interface twin `cachedWriter.WriteLog`)
takes a `*record` from a `sync.Pool`, copies the caller's bytes into it
(`rd.msg = append(rd.msg[:0], s...)` — the stored bytes never alias the
caller's slice), and performs a non-blocking send on a channel of capacity
`cacheSize`; when the channel is full the `select` default drops the record
and reports level and payload via `glog.Printf`. `WithCache` spawns a single
worker goroutine that receives in FIFO order, calls the inner sink
synchronously one record at a time, and returns the record to the pool.

The model below identifies pool records by a numeric id (`sync.Pool.New`
allocating a fresh record is modelled by an increasing counter); caller
buffers live in an explicit heap so that a caller mutating its buffer after
`Log` returns is an observable event. -/

namespace Cached

structure Rec where
  rid : Nat
  t : Nat
  level : Nat
  msg : List Nat
deriving Repr, DecidableEq

structure CState where
  cacheSize : Nat
  ch : List Rec
  pool : List Nat
  nextId : Nat
  delivered : List Rec
  missed : List (Nat × List Nat)
deriving Repr, DecidableEq

/-- `cl.pool.Get().(*record)`: reuse a pooled record if one is free,
otherwise the pool's `New` allocates a fresh one. -/
def poolGet (c : CState) : Nat × CState :=
  match c.pool with
  | [] => (c.nextId, { c with nextId := c.nextId + 1 })
  | r :: rest => (r, { c with pool := rest })

/-- `cachedLogger.Log`: fill the pooled record with an owned copy of the
payload, then non-blocking send; on a full channel the record is dropped
and the drop is reported (level and payload) to the diagnostic log. -/
def logRec (t lv : Nat) (s : List Nat) (c : CState) : CState :=
  let g := poolGet c
  let rd : Rec := ⟨g.1, t, lv, s⟩
  if g.2.ch.length < g.2.cacheSize then { g.2 with ch := g.2.ch ++ [rd] }
  else { g.2 with missed := g.2.missed ++ [(lv, s)] }

/-- One iteration of the worker goroutine spawned by `WithCache`: receive
the oldest queued record, hand it to the inner sink, return it to the
pool. (A blocked receive on an empty channel is a no-op step.) -/
def drainOne (c : CState) : CState :=
  match c.ch with
  | [] => c
  | rd :: rest =>
    { c with ch := rest, delivered := c.delivered ++ [rd],
             pool := c.pool ++ [rd.rid] }

/-- The whole system: the caller-side buffers plus the cached sink. -/
structure Sys where
  heap : List (List Nat)
  c : CState
deriving Repr, DecidableEq

/-- Events: a producer calls `Log` reading buffer `b`; a producer mutates
buffer `b` after some earlier call returned; the worker drains one record. -/
inductive Ev where
  | log (t lv b : Nat)
  | mutate (b : Nat) (v : List Nat)
  | drain
deriving Repr, DecidableEq

def step (s : Sys) : Ev → Sys
  | .log t lv b => { s with c := logRec t lv (s.heap.getD b []) s.c }
  | .mutate b v => { s with heap := s.heap.set b v }
  | .drain => { s with c := drainOne s.c }

def run (es : List Ev) (s : Sys) : Sys :=
  match es with
  | [] => s
  | e :: rest => run rest (step s e)

/-- The bytes currently owned by the sink pipeline, oldest first: already
delivered to the inner sink, then still queued. -/
def pipelineMsgs (s : Sys) : List (List Nat) :=
  (s.c.delivered ++ s.c.ch).map Rec.msg

/-- The payloads (contents of the named buffer at submission time) of the
`log` events along `es` that find room in the queue, in order. -/
def acceptedAlong (es : List Ev) (s : Sys) : List (List Nat) :=
  match es with
  | [] => []
  | e :: rest =>
    (match e with
     | .log _ _ b =>
       if s.c.ch.length < s.c.cacheSize then [s.heap.getD b []] else []
     | _ => []) ++ acceptedAlong rest (step s e)

def isLogEv : Ev → Bool
  | .log _ _ _ => true
  | _ => false

lemma poolGet_fields (c : CState) :
    (poolGet c).2.ch = c.ch ∧ (poolGet c).2.cacheSize = c.cacheSize ∧
    (poolGet c).2.missed = c.missed ∧ (poolGet c).2.delivered = c.delivered := by
  obtain ⟨cap, ch, pool, nid, del, mis⟩ := c
  cases pool <;> simp [poolGet]

lemma logRec_drop (t lv : Nat) (s : List Nat) (c : CState)
    (h : c.cacheSize ≤ c.ch.length) :
    (logRec t lv s c).ch = c.ch ∧
    (logRec t lv s c).delivered = c.delivered ∧
    (logRec t lv s c).missed = c.missed ++ [(lv, s)] ∧
    (logRec t lv s c).cacheSize = c.cacheSize := by
  obtain ⟨h1, h2, h3, h4⟩ := poolGet_fields c
  unfold logRec
  rw [if_neg (by rw [h1, h2]; exact Nat.not_lt.mpr h)]
  simp [h1, h2, h3, h4]

lemma logRec_accept (t lv : Nat) (s : List Nat) (c : CState)
    (h : c.ch.length < c.cacheSize) :
    (logRec t lv s c).ch = c.ch ++ [⟨(poolGet c).1, t, lv, s⟩] ∧
    (logRec t lv s c).delivered = c.delivered ∧
    (logRec t lv s c).missed = c.missed ∧
    (logRec t lv s c).cacheSize = c.cacheSize := by
  obtain ⟨h1, h2, h3, h4⟩ := poolGet_fields c
  unfold logRec
  rw [if_pos (by rw [h1, h2]; exact h)]
  simp [h1, h2, h3, h4]

/-- Each `Log` call with the worker never draining either enqueues one
record or reports one miss; the queue slack plus the miss count grows with
every submission. -/
lemma run_logs_missed (es : List Ev) (s : Sys)
    (h : ∀ e ∈ es, isLogEv e = true) :
    s.c.missed.length + es.length ≤
      (run es s).c.missed.length + (s.c.cacheSize - s.c.ch.length) := by
  induction es generalizing s with
  | nil => simp [run]
  | cons e rest ih =>
    match e with
    | .mutate _ _ => exact absurd (h _ (List.mem_cons_self _ _)) (by simp [isLogEv])
    | .drain => exact absurd (h _ (List.mem_cons_self _ _)) (by simp [isLogEv])
    | .log t lv b =>
      have hrest : ∀ e ∈ rest, isLogEv e = true :=
        fun e he => h e (List.mem_cons_of_mem _ he)
      have ihs := ih (step s (.log t lv b)) hrest
      by_cases hfull : s.c.ch.length < s.c.cacheSize
      · obtain ⟨e1, _, e3, e4⟩ := logRec_accept t lv (s.heap.getD b []) s.c hfull
        simp only [run, step] at ihs ⊢
        rw [e3, e4, e1] at ihs
        simp only [List.length_append, List.length_cons] at ihs ⊢
        omega
      · obtain ⟨e1, _, e3, e4⟩ :=
          logRec_drop t lv (s.heap.getD b []) s.c (Nat.not_lt.mp hfull)
        simp only [run, step] at ihs ⊢
        rw [e3, e4, e1] at ihs
        simp only [List.length_append, List.length_cons] at ihs ⊢
        omega

/-- C2: on a full queue the submission is dropped: the queue and the
delivered sequence are unchanged, one diagnostic report carrying the
offending level and payload is appended (the reports are the drop count),
and the call is a total function of the state — it neither blocks nor
returns an error to the caller. Moreover submitting `capacity + K` records
(`K > 0`) with the worker never draining yields at least `K` drops
reported. -/
theorem c2_full_queue_drops_and_reports :
    (∀ (s : Sys) (t lv b : Nat), s.c.ch.length = s.c.cacheSize →
      (step s (.log t lv b)).c.ch = s.c.ch ∧
      (step s (.log t lv b)).c.delivered = s.c.delivered ∧
      (step s (.log t lv b)).c.missed =
        s.c.missed ++ [(lv, s.heap.getD b [])]) ∧
    (∀ (s : Sys) (es : List Ev) (K : Nat),
      (∀ e ∈ es, isLogEv e = true) →
      es.length = s.c.cacheSize + K →
      s.c.missed.length + K ≤ (run es s).c.missed.length) := by
  constructor
  · intro s t lv b hfull
    obtain ⟨e1, e2, e3, _⟩ :=
      logRec_drop t lv (s.heap.getD b []) s.c (Nat.le_of_eq hfull.symm)
    exact ⟨e1, e2, e3⟩
  · intro s es K hlogs hlen
    have := run_logs_missed es s hlogs
    have hsub : s.c.cacheSize - s.c.ch.length ≤ s.c.cacheSize := Nat.sub_le _ _
    omega

/-- C2 witness: a concrete full queue (capacity 1, one queued record)
drops and reports, and 1 = capacity 0 + 1 submission yields one report. -/
theorem c2_full_queue_drops_and_reports_witness :
    (((⟨[[7]], ⟨1, [⟨0, 0, 0, [5]⟩], [], 1, [], []⟩⟩ : Sys).c.ch.length =
        (⟨[[7]], ⟨1, [⟨0, 0, 0, [5]⟩], [], 1, [], []⟩⟩ : Sys).c.cacheSize) ∧
      (step (⟨[[7]], ⟨1, [⟨0, 0, 0, [5]⟩], [], 1, [], []⟩⟩ : Sys)
          (.log 2 3 0)).c.ch =
        (⟨[[7]], ⟨1, [⟨0, 0, 0, [5]⟩], [], 1, [], []⟩⟩ : Sys).c.ch) ∧
    ((⟨[[7]], ⟨0, [], [], 0, [], []⟩⟩ : Sys).c.missed.length + 1 ≤
      (run [.log 2 3 0] (⟨[[7]], ⟨0, [], [], 0, [], []⟩⟩ : Sys)).c.missed.length) :=
  ⟨⟨by decide,
    (c2_full_queue_drops_and_reports.1
      (⟨[[7]], ⟨1, [⟨0, 0, 0, [5]⟩], [], 1, [], []⟩⟩ : Sys) 2 3 0 (by decide)).1⟩,
   c2_full_queue_drops_and_reports.2
      (⟨[[7]], ⟨0, [], [], 0, [], []⟩⟩ : Sys) [.log 2 3 0] 1
      (by decide) (by decide)⟩

/-- One step changes the pipeline (delivered then queued payloads) only by
appending the payload of an accepted submission — `rd.msg = append(rd.msg[:0], s...)`
stores the submission-time contents, a drain merely moves the queue head to
the delivered side, and a caller-buffer mutation touches nothing. -/
lemma pipelineMsgs_step (s : Sys) (e : Ev) :
    pipelineMsgs (step s e) = pipelineMsgs s ++
      (match e with
       | .log _ _ b =>
         if s.c.ch.length < s.c.cacheSize then [s.heap.getD b []] else []
       | _ => []) := by
  cases e with
  | log t lv b =>
    by_cases hf : s.c.ch.length < s.c.cacheSize
    · obtain ⟨e1, e2, _, _⟩ := logRec_accept t lv (s.heap.getD b []) s.c hf
      simp only [pipelineMsgs, step, e1, e2, if_pos hf]
      simp
    · obtain ⟨e1, e2, _, _⟩ :=
        logRec_drop t lv (s.heap.getD b []) s.c (Nat.not_lt.mp hf)
      simp only [pipelineMsgs, step, e1, e2, if_neg hf]
      simp
  | mutate b v => simp [pipelineMsgs, step]
  | drain =>
    rcases hch : s.c.ch with _ | ⟨rd, rest⟩ <;>
      simp [pipelineMsgs, step, drainOne, hch]

/-- C3: the queue entry owns its payload. Mutating a caller buffer after a
call returns changes no sink state at all; an accepted submission stores
exactly the buffer's contents at submission time; and the payloads already
owned by the pipeline are preserved verbatim (as a prefix) by every later
sequence of submissions, mutations and worker deliveries. -/
theorem c3_entry_owns_payload_copy :
    (∀ (s : Sys) (b : Nat) (v : List Nat), (step s (.mutate b v)).c = s.c) ∧
    (∀ (s : Sys) (t lv b : Nat),
      (step s (.log t lv b)).c.ch = s.c.ch ∨
      (step s (.log t lv b)).c.ch =
        s.c.ch ++ [⟨(poolGet s.c).1, t, lv, s.heap.getD b []⟩]) ∧
    (∀ (s : Sys) (es : List Ev), pipelineMsgs s <+: pipelineMsgs (run es s)) := by
  refine ⟨fun s b v => rfl, fun s t lv b => ?_, fun s es => ?_⟩
  · by_cases hf : s.c.ch.length < s.c.cacheSize
    · exact Or.inr (logRec_accept t lv (s.heap.getD b []) s.c hf).1
    · exact Or.inl (logRec_drop t lv (s.heap.getD b []) s.c (Nat.not_lt.mp hf)).1
  · induction es generalizing s with
    | nil => exact List.prefix_refl _
    | cons e rest ih =>
      have h1 : pipelineMsgs s <+: pipelineMsgs (step s e) := by
        rw [pipelineMsgs_step]; exact List.prefix_append _ _
      exact h1.trans (ih (step s e))

/-- C4: FIFO delivery. The payloads delivered to the inner sink followed by
those still queued are exactly the accepted submissions in submission
order (drops simply vanish, leaving no marker); one worker iteration
delivers at most one record — the queue head — appending it to the
delivered sequence; and the delivered sequence only ever grows at its end,
so enqueued records reach the inner sink in enqueue order. -/
theorem c4_fifo_delivery_order :
    (∀ (es : List Ev) (s : Sys),
      pipelineMsgs (run es s) = pipelineMsgs s ++ acceptedAlong es s) ∧
    (∀ s : Sys, (step s .drain).c.delivered = s.c.delivered ∨
      ∃ rd, s.c.ch = rd :: (step s .drain).c.ch ∧
        (step s .drain).c.delivered = s.c.delivered ++ [rd]) ∧
    (∀ (s : Sys) (e : Ev), s.c.delivered <+: (step s e).c.delivered) := by
  refine ⟨?_, fun s => ?_, fun s e => ?_⟩
  · intro es
    induction es with
    | nil => intro s; simp [run, acceptedAlong]
    | cons e rest ih =>
      intro s
      show pipelineMsgs (run rest (step s e)) = _
      rw [ih (step s e), pipelineMsgs_step]
      simp only [acceptedAlong, List.append_assoc]
  · rcases hch : s.c.ch with _ | ⟨rd, rest⟩
    · exact Or.inl (by simp [step, drainOne, hch])
    · exact Or.inr ⟨rd, by simp [step, drainOne, hch]⟩
  · cases e with
    | log t lv b =>
      by_cases hf : s.c.ch.length < s.c.cacheSize
      · exact (logRec_accept t lv (s.heap.getD b []) s.c hf).2.1 ▸
          List.prefix_refl _
      · exact (logRec_drop t lv (s.heap.getD b []) s.c
          (Nat.not_lt.mp hf)).2.1 ▸ List.prefix_refl _
    | mutate b v => exact List.prefix_refl _
    | drain =>
      rcases hch : s.c.ch with _ | ⟨rd, rest⟩
      · simp [step, drainOne, hch]
      · simp [step, drainOne, hch]

/-- Record ids handed out so far are distinct and below the allocation
counter: true of any state built from a fresh `WithCache` sink. -/
def WF (c : CState) : Prop :=
  (c.pool ++ c.ch.map Rec.rid).Nodup ∧
  ∀ i ∈ c.pool ++ c.ch.map Rec.rid, i < c.nextId

instance (c : CState) : Decidable (WF c) := by unfold WF; infer_instance

/-- Record `i` has left the reuse cycle: it is neither free in the pool nor
queued, and it can never be confused with a future allocation. -/
def Gone (i : Nat) (c : CState) : Prop :=
  i ∉ c.pool ∧ i ∉ c.ch.map Rec.rid ∧ i < c.nextId

lemma logRec_pool_eq (t lv : Nat) (s : List Nat) (c : CState) :
    (logRec t lv s c).pool = (poolGet c).2.pool ∧
    (logRec t lv s c).nextId = (poolGet c).2.nextId := by
  unfold logRec
  dsimp only
  split <;> exact ⟨rfl, rfl⟩

lemma poolGet_pool_cases (c : CState) :
    (c.pool = [] ∧ (poolGet c).1 = c.nextId ∧ (poolGet c).2.pool = [] ∧
      (poolGet c).2.nextId = c.nextId + 1) ∨
    (c.pool = (poolGet c).1 :: (poolGet c).2.pool ∧
      (poolGet c).2.nextId = c.nextId) := by
  obtain ⟨cap, ch, pool, nid, del, mis⟩ := c
  cases pool <;> simp [poolGet]

lemma logRec_pool (t lv : Nat) (s : List Nat) (c : CState) :
    ((logRec t lv s c).nextId = c.nextId ∧
      c.pool = (poolGet c).1 :: (logRec t lv s c).pool) ∨
    (c.pool = [] ∧ (logRec t lv s c).pool = [] ∧
      (poolGet c).1 = c.nextId ∧ (logRec t lv s c).nextId = c.nextId + 1) := by
  obtain ⟨hp, hn⟩ := logRec_pool_eq t lv s c
  rcases poolGet_pool_cases c with ⟨h1, h2, h3, h4⟩ | ⟨h1, h2⟩
  · exact Or.inr ⟨h1, by rw [hp, h3], h2, by rw [hn, h4]⟩
  · exact Or.inl ⟨by rw [hn, h2], by rw [← hp] at h1; exact h1⟩

/-- No step can put a record that is outside the reuse cycle back into it:
the pool only receives ids taken from the queue, the queue only receives
ids taken from the pool or freshly allocated. -/
lemma gone_step (i : Nat) (s : Sys) (e : Ev) (hg : Gone i s.c) :
    Gone i (step s e).c := by
  obtain ⟨hp, hch, hlt⟩ := hg
  cases e with
  | mutate b v => exact ⟨hp, hch, hlt⟩
  | drain =>
    rcases hchq : s.c.ch with _ | ⟨rd, rest⟩
    · simp only [step, drainOne, hchq]
      exact ⟨hp, by simpa [hchq] using hch, hlt⟩
    · rw [hchq] at hch
      simp only [List.map_cons, List.mem_cons] at hch
      push_neg at hch
      refine ⟨?_, ?_, ?_⟩ <;> simp only [step, drainOne, hchq]
      · simp only [List.mem_append, List.mem_singleton]
        push_neg
        exact ⟨hp, hch.1⟩
      · exact hch.2
      · exact hlt
  | log t lv b =>
    have hne : i ≠ (poolGet s.c).1 := by
      rcases logRec_pool t lv (s.heap.getD b []) s.c with
        ⟨_, hpools⟩ | ⟨_, _, hg1, _⟩
      · intro h
        exact hp (by rw [hpools, ← h]; exact List.mem_cons_self _ _)
      · intro h
        rw [h, hg1] at hlt
        exact absurd hlt (lt_irrefl _)
    have hpool : i ∉ (logRec t lv (s.heap.getD b []) s.c).pool ∧
        i < (logRec t lv (s.heap.getD b []) s.c).nextId := by
      rcases logRec_pool t lv (s.heap.getD b []) s.c with
        ⟨hnid, hpools⟩ | ⟨_, hpool2, _, hnid⟩
      · refine ⟨fun hmem => hp ?_, by omega⟩
        rw [hpools]
        exact List.mem_cons_of_mem _ hmem
      · refine ⟨?_, by omega⟩
        rw [hpool2]
        exact List.not_mem_nil _
    have hchn : i ∉ (logRec t lv (s.heap.getD b []) s.c).ch.map Rec.rid := by
      by_cases hf : s.c.ch.length < s.c.cacheSize
      · rw [(logRec_accept t lv (s.heap.getD b []) s.c hf).1]
        simp only [List.map_append, List.map_cons, List.map_nil,
          List.mem_append, List.mem_cons, List.not_mem_nil]
        push_neg
        exact ⟨hch, hne, fun h => h.elim⟩
      · rw [(logRec_drop t lv (s.heap.getD b []) s.c (Nat.not_lt.mp hf)).1]
        exact hch
    exact ⟨hpool.1, hchn, hpool.2⟩

lemma gone_run (i : Nat) (es : List Ev) (s : Sys) (hg : Gone i s.c) :
    Gone i (run es s).c := by
  induction es generalizing s with
  | nil => exact hg
  | cons e rest ih => exact ih (step s e) (gone_step i s e hg)

/-- C10: a drop leaks the pooled record. When the queue is full, `Log`
leaves the queue untouched, but the record it took from the `sync.Pool` is
returned to neither the pool nor the queue, and no later sequence of
submissions, mutations and worker deliveries ever puts it back in the
pool — only a record the worker just delivered from the queue is ever
`Put` back. -/
theorem c10_dropped_record_never_returns_to_pool
    (s : Sys) (t lv b : Nat) (hwf : WF s.c)
    (hfull : s.c.ch.length = s.c.cacheSize) :
    (step s (.log t lv b)).c.ch = s.c.ch ∧
    (poolGet s.c).1 ∉ (step s (.log t lv b)).c.pool ∧
    (poolGet s.c).1 ∉ (step s (.log t lv b)).c.ch.map Rec.rid ∧
    (∀ es : List Ev,
      (poolGet s.c).1 ∉ (run es (step s (.log t lv b))).c.pool) ∧
    (∀ s₂ : Sys, (step s₂ .drain).c.pool = s₂.c.pool ∨
      ∃ rd rest, s₂.c.ch = rd :: rest ∧
        (step s₂ .drain).c.pool = s₂.c.pool ++ [rd.rid] ∧
        (step s₂ .drain).c.delivered = s₂.c.delivered ++ [rd]) := by
  obtain ⟨hnd, hbound⟩ := hwf
  have hfull' : s.c.cacheSize ≤ s.c.ch.length := Nat.le_of_eq hfull.symm
  obtain ⟨e1, _, _, _⟩ := logRec_drop t lv (s.heap.getD b []) s.c hfull'
  have hgone : Gone ((poolGet s.c).1) (step s (.log t lv b)).c := by
    rcases hcase : logRec_pool t lv (s.heap.getD b []) s.c with
      ⟨hnid, hpools⟩ | ⟨hpe, hpool2, hg1, hnid⟩
    · have hhead : (poolGet s.c).1 ∈ s.c.pool := by
        rw [hpools]; exact List.mem_cons_self _ _
      have hnd' : ((poolGet s.c).1 :: ((logRec t lv (s.heap.getD b []) s.c).pool
          ++ s.c.ch.map Rec.rid)).Nodup := by
        rw [← List.cons_append, ← hpools]
        exact hnd
      rw [List.nodup_cons] at hnd'
      refine ⟨fun hmem => hnd'.1 (List.mem_append_left _ hmem), ?_, ?_⟩
      · show (poolGet s.c).1 ∉ (logRec t lv (s.heap.getD b []) s.c).ch.map Rec.rid
        rw [e1]
        exact fun hmem => hnd'.1 (List.mem_append_right _ hmem)
      · show (poolGet s.c).1 < (logRec t lv (s.heap.getD b []) s.c).nextId
        rw [hnid]
        exact hbound _ (List.mem_append_left _ hhead)
    · refine ⟨?_, ?_, ?_⟩
      · show (poolGet s.c).1 ∉ (logRec t lv (s.heap.getD b []) s.c).pool
        rw [hpool2]
        exact List.not_mem_nil _
      · show (poolGet s.c).1 ∉ (logRec t lv (s.heap.getD b []) s.c).ch.map Rec.rid
        rw [e1, hg1]
        intro hmem
        exact absurd (hbound _ (List.mem_append_right _ hmem)) (lt_irrefl _)
      · show (poolGet s.c).1 < (logRec t lv (s.heap.getD b []) s.c).nextId
        rw [hg1, hnid]
        omega
  refine ⟨e1, hgone.1, hgone.2.1, ?_, ?_⟩
  · intro es
    exact (gone_run _ es _ hgone).1
  · intro s₂
    rcases hch₂ : s₂.c.ch with _ | ⟨rd, rest⟩
    · exact Or.inl (by simp [step, drainOne, hch₂])
    · exact Or.inr ⟨rd, rest, rfl, by simp [step, drainOne, hch₂],
        by simp [step, drainOne, hch₂]⟩

/-- C10 witness: a capacity-0 sink drops the very first submission and the
freshly allocated record 0 never reaches the pool. -/
theorem c10_dropped_record_never_returns_to_pool_witness :
    (WF (⟨[[1]], ⟨0, [], [], 0, [], []⟩⟩ : Sys).c ∧
      (⟨[[1]], ⟨0, [], [], 0, [], []⟩⟩ : Sys).c.ch.length =
        (⟨[[1]], ⟨0, [], [], 0, [], []⟩⟩ : Sys).c.cacheSize) ∧
    (poolGet (⟨[[1]], ⟨0, [], [], 0, [], []⟩⟩ : Sys).c).1 ∉
      (step (⟨[[1]], ⟨0, [], [], 0, [], []⟩⟩ : Sys) (.log 4 5 0)).c.pool :=
  ⟨⟨by decide, by decide⟩,
   (c10_dropped_record_never_returns_to_pool
      (⟨[[1]], ⟨0, [], [], 0, [], []⟩⟩ : Sys) 4 5 0 (by decide)
      (by decide)).2.1⟩

end Cached

/-! ### `FileWriter` (logutil/file.go) and the inotify watcher
(logutil/inotify.go)

`FileWriter` holds a filename and a `*os.File`; `WriteLog` writes to the
current handle with no synchronization; `SwapFile` exchanges the handle and
returns the old one. The watcher's system calls are modelled by explicit
outcome parameters (`Bool` for `InotifyInit`/`InotifyAddWatch` success,
`Option Nat` for the handle `os.OpenFile` yields). -/

namespace Logutil

structure FW where
  filename : List Char
  fp : Nat
deriving Repr, DecidableEq

/-- `FileWriter.WriteLog` = `fw.fp.Write(s)`: the pair (handle written,
bytes written). -/
def WriteLogTo (fw : FW) (s : List Nat) : Nat × List Nat := (fw.fp, s)

/-- `FileWriter.SwapFile`: install the new handle, return the old one. -/
def SwapFile (fw : FW) (new : Nat) : Nat × FW := (fw.fp, { fw with fp := new })

/-- `inotifyWriter.WriteLog` delegates unconditionally to `fs.WriteLog`,
whatever the watcher is doing. -/
def iwWriteLog (fw : FW) (s : List Nat) : Nat × List Nat := WriteLogTo fw s

/-- `inotifyWriter.inotifyCb`, up to the handle swap: on `os.OpenFile`
failure it reports one diagnostic and returns, leaving the writer exactly
as it was; on success it swaps in the new handle (the `Dup2`/sleep/close
tail is analysed separately in the `Rot` interleaving model). -/
def inotifyCb (openResult : Option Nat) (fw : FW) : FW × List String :=
  match openResult with
  | none => (fw, ["open log file error"])
  | some fp => ((SwapFile fw fp).2, [])

/-- `inotifyWriter.inotify`: `InotifyInit` then `InotifyAddWatch`; each
failure returns `nil` after logging one diagnostic; success arms the
watch. -/
def inotifyAttempt (initOk addWatchOk : Bool) : Option Unit × List String :=
  if initOk = false then (none, ["inotify init error"])
  else if addWatchOk = false then (none, ["inotify add watch error"])
  else (some (), [])

/-- `inotifyWriter.run`: an endless loop; every iteration calls `inotify`
again (a failed attempt sleeps one second and retries). `runReports
outcomes` collects the diagnostics of the iterations whose system-call
outcomes are given by `outcomes`. -/
def runReports : List (Bool × Bool) → List String
  | [] => []
  | a :: rest => (inotifyAttempt a.1 a.2).2 ++ runReports rest

/-- C5 counterexample: the claim says a watch-initialization failure is
reported exactly once. With the notification facility persistently
unavailable, two iterations of `run` (the loop retries every second)
produce two reports, not one. -/
theorem c5_counterexample :
    (runReports [(false, true), (false, true)]).length ≠ 1 := by
  decide

/-- C5 (amended): watch-initialization failure is indeed non-fatal — the
sink keeps accepting `WriteLog` calls against the handle it already has,
and a failed attempt never touches the writer — but rotation-awareness is
not disabled for the instance and the degradation is not reported exactly
once: `run` retries the watch every second, emitting one diagnostic per
failed attempt. -/
theorem c5_watch_failure_nonfatal_reports_per_attempt
    (outcomes : List (Bool × Bool)) :
    (runReports outcomes).length =
      (outcomes.filter (fun a => !(a.1 && a.2))).length ∧
    (∀ (fw : FW) (s : List Nat), iwWriteLog fw s = (fw.fp, s)) := by
  constructor
  · induction outcomes with
    | nil => rfl
    | cons a rest ih =>
      rcases a with ⟨i, w⟩
      cases i <;> cases w <;>
        simp [runReports, inotifyAttempt, List.filter, ih]
  · intro fw s
    rfl

/-- C6: when the rotation callback cannot open a fresh file at the path,
it reports one diagnostic and returns: the writer is unchanged, later
`WriteLog` calls still write to the old (possibly unlinked but valid)
handle, and the sink is neither dropped nor replaced by a no-op. -/
theorem c6_rotation_open_failure_keeps_old_handle (fw : FW) (s : List Nat) :
    (inotifyCb none fw).1 = fw ∧
    (inotifyCb none fw).2 = ["open log file error"] ∧
    WriteLogTo (inotifyCb none fw).1 s = (fw.fp, s) := by
  exact ⟨rfl, rfl, rfl⟩

/-- `NewFileWriter` (logutil/file.go): `MkdirAll` failure and `OpenFile`
failure both `panic(err)`; the panic is modelled as `Except.error`. -/
def NewFileWriter (mkdirOk : Bool) (openResult : Option Nat)
    (filename : List Char) : Except String FW :=
  if mkdirOk = false then .error "MkdirAll panic"
  else
    match openResult with
    | none => .error "OpenFile panic"
    | some fp => .ok ⟨filename, fp⟩

/-- `WithInotify` (logutil/inotify.go): same two `panic(err)` exits; on
success the freshly opened handle is swapped into the `FileSwitcher` and
the returned writer wraps it. -/
def WithInotify (mkdirOk : Bool) (openResult : Option Nat) (fs : FW) :
    Except String FW :=
  if mkdirOk = false then .error "MkdirAll panic"
  else
    match openResult with
    | none => .error "OpenFile panic"
    | some fp => .ok (SwapFile fs fp).2

/-- C8: if the directory cannot be created or the file cannot be opened,
both sink constructors fail loudly (a panic, modelled as `Except.error`)
— the failure is surfaced at construction time and no `.ok` sink, in
particular no silent no-op sink, is ever produced in that case. -/
theorem c8_construction_failure_is_surfaced (filename : List Char) (fs : FW)
    (mkdirOk : Bool) (openResult : Option Nat)
    (h : mkdirOk = false ∨ openResult = none) :
    (∃ e, NewFileWriter mkdirOk openResult filename = .error e) ∧
    (∀ fw, NewFileWriter mkdirOk openResult filename ≠ .ok fw) ∧
    (∃ e, WithInotify mkdirOk openResult fs = .error e) ∧
    (∀ fw, WithInotify mkdirOk openResult fs ≠ .ok fw) := by
  rcases h with h | h
  · subst h
    simp [NewFileWriter, WithInotify]
  · subst h
    cases mkdirOk <;> simp [NewFileWriter, WithInotify]

/-- C8 witness: `MkdirAll` succeeding but `OpenFile` failing yields an
error from `NewFileWriter`, not a sink. -/
theorem c8_construction_failure_is_surfaced_witness :
    (true = false ∨ (none : Option Nat) = none) ∧
    ∃ e, NewFileWriter true none "a.log".toList = .error e :=
  ⟨Or.inr rfl,
   (c8_construction_failure_is_surfaced "a.log".toList ⟨"a.log".toList, 0⟩
      true none (Or.inr rfl)).1⟩

end Logutil

/-! ### `NewWriter` / `NewMutexWriter` (log.go) -/

/-- The two concrete `log.Writer` shapes in log.go: `writer{w}` writes
directly; `mutexWriter{m, w}` locks around the write. -/
inductive GoWriter where
  | plain (w : Nat)
  | mutex (w : Nat)
deriving Repr, DecidableEq

inductive WEvent where
  | lockEv
  | unlockEv
  | writeEv (w : Nat) (s : List Nat)
deriving Repr, DecidableEq

/-- The sequence of lock/write events one `WriteLog` call performs. -/
def WriteLogEvents : GoWriter → List Nat → List WEvent
  | .plain w, s => [.writeEv w s]
  | .mutex w, s => [.lockEv, .writeEv w s, .unlockEv]

/-- `NewWriter` returns `writer{w: w}`. -/
def NewWriter (w : Nat) : GoWriter := .plain w

/-- `NewMutexWriter` is documented to return a concurrency-safe writer but
its body is `return writer{w: w}`. -/
def NewMutexWriter (w : Nat) : GoWriter := .plain w

/-- C9: `NewMutexWriter(w)` is the very writer `NewWriter(w)` returns: its
`WriteLog` performs the bare write with no lock or unlock event, and the
`mutexWriter` type (whose `WriteLog` would lock) is never the value
returned, despite the documentation's concurrency-safety promise. -/
theorem c9_newmutexwriter_is_plain_writer (w : Nat) :
    NewMutexWriter w = NewWriter w ∧
    (∀ s, WriteLogEvents (NewMutexWriter w) s = [.writeEv w s]) ∧
    (∀ w', NewMutexWriter w ≠ .mutex w') := by
  exact ⟨rfl, fun s => rfl, fun w' h => by cases h⟩

/-! ### Interleaving model of one rotation against concurrent `WriteLog`
calls (logutil/file.go + logutil/inotify.go)

`FileWriter` has no mutex: `WriteLog` is `fw.fp.Write(s)` — an unprotected
read of `fw.fp` followed by a write on that handle — and `inotifyCb` runs
`SwapFile`, `syscall.Dup2(fp.Fd(), old.Fd())`, `time.Sleep(time.Second)`,
`old.Close()` on the watcher goroutine with no synchronization either.

The model fixes the original `*os.File` as object 0 (descriptor number 0,
initially referring to file 0) and the file `inotifyCb` opens as object 1
(descriptor number 1, referring to file 1). `d0`/`d1` give the file each
descriptor number currently refers to (`none` = closed). The writer thread
takes two atomic steps per `WriteLog` call: load `fw.fp`, then write
through the loaded object; a write through a closed descriptor fails
(`EBADF`) and its bytes land on no file, recorded as `none`. The rotator
takes its five steps in program order through the counter `pc`. -/

namespace Rot

structure St where
  fp : Nat
  d0 : Option Nat
  d1 : Option Nat
  loaded : Option Nat
  pc : Nat
  written : List (Nat × Option Nat)
  opens : Nat
  closes : Nat
deriving Repr, DecidableEq

def init : St := ⟨0, some 0, none, none, 0, [], 0, 0⟩

inductive L where
  | wload
  | wwrite
  | ropen
  | rswap
  | rdup2
  | rsleep
  | rclose
deriving Repr, DecidableEq

/-- One atomic step; `none` when the thread is not at that step. Each
`written` entry records the rotator's progress at write time and the file
that received the bytes (`none` = the write failed, the record is lost). -/
def stepR (s : St) : L → Option St
  | .wload =>
    match s.loaded with
    | none => some { s with loaded := some s.fp }
    | some _ => none
  | .wwrite =>
    match s.loaded with
    | some o =>
      some { s with
              loaded := none,
              written := s.written ++
                [(s.pc, if o = 0 then s.d0 else s.d1)] }
    | none => none
  | .ropen =>
    if s.pc = 0 then
      some { s with d1 := some 1, pc := 1, opens := s.opens + 1 }
    else none
  | .rswap => if s.pc = 1 then some { s with fp := 1, pc := 2 } else none
  | .rdup2 => if s.pc = 2 then some { s with d0 := s.d1, pc := 3 } else none
  | .rsleep => if s.pc = 3 then some { s with pc := 4 } else none
  | .rclose =>
    if s.pc = 4 then
      some { s with d0 := none, pc := 5, closes := s.closes + 1 }
    else none

def exec : List L → St → Option St
  | [], s => some s
  | a :: as, s =>
    match stepR s a with
    | some s' => exec as s'
    | none => none

/-- The interleaving that loses a write: a `WriteLog` call reads `fw.fp`
before the rotation, then performs its write only after the one-second
grace period has elapsed and `old.Close()` has run. -/
def loseTrace : List L :=
  [.wload, .ropen, .rswap, .rdup2, .rsleep, .rclose, .wwrite]

/-- C1 counterexample: the claim says that for every interleaving of one
rotation with concurrent `WriteLog` calls no write is lost. `FileWriter`
has no lock, and in the interleaving `loseTrace` a completed `WriteLog`
writes through the already-closed old descriptor: its bytes land on no
file. -/
theorem c1_counterexample :
    ¬ (∀ (tr : List L) (st : St), exec tr init = some st →
        ∀ p ∈ st.written, p.2 ≠ none) := by
  intro h
  exact h loseTrace ⟨1, none, some 1, none, 5, [(5, none)], 1, 1⟩
    (by decide) (5, none) (by decide) rfl

def Inv (s : St) : Prop :=
  s.pc ≤ 5 ∧
  s.fp = (if 2 ≤ s.pc then 1 else 0) ∧
  s.d1 = (if 1 ≤ s.pc then some 1 else none) ∧
  s.d0 = (if 5 ≤ s.pc then none else if 3 ≤ s.pc then some 1 else some 0) ∧
  s.opens = (if 1 ≤ s.pc then 1 else 0) ∧
  s.closes = (if 5 ≤ s.pc then 1 else 0) ∧
  (∀ o, s.loaded = some o → (o = 0 ∨ o = 1)) ∧
  (s.loaded = some 1 → 2 ≤ s.pc) ∧
  (∀ p ∈ s.written, p.1 < 5 → (p.2 = some 0 ∨ p.2 = some 1))

lemma inv_init : Inv init := by
  refine ⟨by decide, by decide, by decide, by decide, by decide, by decide,
    ?_, ?_, ?_⟩
  · intro o h
    cases h
  · intro h
    cases h
  · intro p hp
    cases hp

lemma inv_step (s : St) (a : L) (s' : St) (hi : Inv s)
    (hs : stepR s a = some s') : Inv s' := by
  obtain ⟨h5, hfp, hd1, hd0, hop, hcl, hld, hld1, hw⟩ := hi
  cases a with
  | wload =>
    rcases hl : s.loaded with _ | o
    · simp only [stepR, hl] at hs
      obtain rfl := Option.some.inj hs
      refine ⟨h5, hfp, hd1, hd0, hop, hcl, ?_, ?_, hw⟩
      · intro o h
        obtain rfl := Option.some.inj h
        rw [hfp]
        split <;> simp
      · intro h
        obtain hfp1 := Option.some.inj h
        rw [hfp] at hfp1
        by_cases h2 : 2 ≤ s.pc
        · exact h2
        · rw [if_neg h2] at hfp1
          cases hfp1
    · simp [stepR, hl] at hs
  | wwrite =>
    rcases hl : s.loaded with _ | o
    · simp [stepR, hl] at hs
    · simp only [stepR, hl] at hs
      obtain rfl := Option.some.inj hs
      refine ⟨h5, hfp, hd1, hd0, hop, hcl, ?_, ?_, ?_⟩
      · intro o' h
        cases h
      · intro h
        cases h
      · intro p hp hplt
        have hp' : p ∈ s.written ++ [(s.pc, if o = 0 then s.d0 else s.d1)] := hp
        rcases List.mem_append.mp hp' with hold | hnew
        · exact hw p hold hplt
        · rw [List.mem_singleton] at hnew
          subst hnew
          replace hplt : s.pc < 5 := hplt
          show (if o = 0 then s.d0 else s.d1) = some 0 ∨
            (if o = 0 then s.d0 else s.d1) = some 1
          rcases hld o hl with rfl | rfl
          · rw [if_pos rfl, hd0, if_neg (by omega)]
            by_cases h3 : 3 ≤ s.pc
            · exact Or.inr (by rw [if_pos h3])
            · exact Or.inl (by rw [if_neg h3])
          · have h2 := hld1 hl
            rw [if_neg (by decide), hd1, if_pos (by omega)]
            exact Or.inr rfl
  | ropen =>
    by_cases hpc : s.pc = 0
    · simp only [stepR, if_pos hpc] at hs
      obtain rfl := Option.some.inj hs
      rw [hpc] at hfp hd1 hd0 hop hcl hld1
      refine ⟨(by decide : (1:Nat) ≤ 5), by simpa using hfp, by simp, by simpa using hd0,
        by simpa using hop, by simpa using hcl, hld, ?_, ?_⟩
      · intro h
        exact absurd (hld1 h) (by omega)
      · intro p hp hplt
        exact hw p hp hplt
    · simp [stepR, hpc] at hs
  | rswap =>
    by_cases hpc : s.pc = 1
    · simp only [stepR, if_pos hpc] at hs
      obtain rfl := Option.some.inj hs
      rw [hpc] at hd1 hd0 hop hcl
      refine ⟨(by decide : (2:Nat) ≤ 5), by simp, by simpa using hd1, by simpa using hd0,
        by simpa using hop, by simpa using hcl, hld, fun _ => (by decide : (2:Nat) ≤ 2), ?_⟩
      intro p hp hplt
      exact hw p hp hplt
    · simp [stepR, hpc] at hs
  | rdup2 =>
    by_cases hpc : s.pc = 2
    · simp only [stepR, if_pos hpc] at hs
      obtain rfl := Option.some.inj hs
      rw [hpc] at hfp hd1 hd0 hop hcl
      refine ⟨(by decide : (3:Nat) ≤ 5), by simpa using hfp, by simpa using hd1,
        by simp [hd1], by simpa using hop, by simpa using hcl, hld,
        fun _ => (by decide : (2:Nat) ≤ 3), ?_⟩
      intro p hp hplt
      exact hw p hp hplt
    · simp [stepR, hpc] at hs
  | rsleep =>
    by_cases hpc : s.pc = 3
    · simp only [stepR, if_pos hpc] at hs
      obtain rfl := Option.some.inj hs
      rw [hpc] at hfp hd1 hd0 hop hcl
      refine ⟨(by decide : (4:Nat) ≤ 5), by simpa using hfp, by simpa using hd1,
        by simpa using hd0, by simpa using hop, by simpa using hcl, hld,
        fun _ => (by decide : (2:Nat) ≤ 4), ?_⟩
      intro p hp hplt
      exact hw p hp hplt
    · simp [stepR, hpc] at hs
  | rclose =>
    by_cases hpc : s.pc = 4
    · simp only [stepR, if_pos hpc] at hs
      obtain rfl := Option.some.inj hs
      rw [hpc] at hfp hd1 hop hcl
      refine ⟨(by decide : (5:Nat) ≤ 5), by simpa using hfp, by simpa using hd1, by simp,
        by simpa using hop, by simp [hcl], hld, fun _ => (by decide : (2:Nat) ≤ 5), ?_⟩
      intro p hp hplt
      exact hw p hp hplt
    · simp [stepR, hpc] at hs

lemma inv_exec (tr : List L) (s st : St) (hi : Inv s)
    (he : exec tr s = some st) : Inv st := by
  induction tr generalizing s with
  | nil =>
    simp only [exec] at he
    obtain rfl := Option.some.inj he
    exact hi
  | cons a as ih =>
    simp only [exec] at he
    rcases hs : stepR s a with _ | s'
    · rw [hs] at he
      cases he
    · rw [hs] at he
      exact ih s' (inv_step s a s' hi hs) he

/-- C1 (amended): `FileWriter` has no lock, so the swap is not mutually
exclusive with `WriteLog`; instead `inotifyCb` redirects the old
descriptor number to the new file with `Dup2` and closes it one second
later. Under every interleaving, a `WriteLog` that completes before that
close lands on the old or the new file (in-flight writes are redirected,
none split or lost inside the grace window), and a completed rotation
opens exactly one new descriptor and closes exactly one; but a write
delayed past the close is lost, as the counterexample shows. -/
theorem c1_swap_unlocked_grace_window (tr : List L) (st : St)
    (he : exec tr init = some st) :
    (∀ p ∈ st.written, p.1 < 5 → (p.2 = some 0 ∨ p.2 = some 1)) ∧
    st.opens ≤ 1 ∧ st.closes ≤ 1 ∧
    (st.pc = 5 → st.opens = 1 ∧ st.closes = 1) := by
  obtain ⟨h5, _, _, _, hop, hcl, _, _, hw⟩ := inv_exec tr init st inv_init he
  refine ⟨hw, ?_, ?_, ?_⟩
  · rw [hop]; split <;> omega
  · rw [hcl]; split <;> omega
  · intro hpc
    rw [hop, hcl, if_pos (by omega), if_pos (by omega)]
    exact ⟨rfl, rfl⟩

/-- C1 witness: in the interleaving where the delayed write lands inside
the grace window (after `Dup2`, before `Close`), the write is redirected
to the new file — delivered, not lost — and the completed rotation scores
exactly one open and one close. -/
theorem c1_swap_unlocked_grace_window_witness :
    (exec [L.wload, L.ropen, L.rswap, L.rdup2, L.wwrite, L.rsleep, L.rclose]
        init = some ⟨1, none, some 1, none, 5, [(3, some 1)], 1, 1⟩) ∧
    ((3, some 1) ∈ ([(3, some 1)] : List (Nat × Option Nat)) → (3 : Nat) < 5 →
      ((some 1 : Option Nat) = some 0 ∨ (some 1 : Option Nat) = some 1)) :=
  ⟨by decide,
   fun hm hlt =>
     (c1_swap_unlocked_grace_window
        [L.wload, L.ropen, L.rswap, L.rdup2, L.wwrite, L.rsleep, L.rclose]
        ⟨1, none, some 1, none, 5, [(3, some 1)], 1, 1⟩ (by decide)).1
       (3, some 1) hm hlt⟩

end Rot

end EachainLog
